import Mathlib

/-!
# Verification of the crypto-stock-tracker client

Shallow embedding of the two units of the repository:

* the Ticker Stream Manager (`src/app/page.tsx`): one aggregate WebSocket
  stream feeding a symbol-keyed map of `CryptoPrice` snapshots, with
  exponential-backoff reconnection; and
* the Historical Series Loader (`src/components/crypto-chart.tsx`):
  `fetchHistoricalData` (bulk kline fetch, placeholder synthesis on failure)
  plus the per-symbol live stream that appends bars into a bounded window.

Modelling conventions:

* JavaScript numbers are modelled as `ℚ` (the program only compares prices
  and performs exact-in-spirit arithmetic on them; no claim depends on IEEE
  rounding).
* `Date.now()` and locale label formatting are environment inputs: handlers
  take the current time `now : Int` and a formatting function `Int → String`
  as parameters.
* `Math.random()` is modelled as an input stream `rand : ℕ → ℚ` of values in
  `[0, 1)`, consumed left to right (four draws per synthesized bar).
* A `try { JSON.parse ... }` handler is modelled by a message type with an
  explicit `malformed` constructor mapped to the catch branch.
* React state reads inside handlers are modelled as reads of the current
  state (the intended semantics of the handlers); React's render/closure
  mechanics are not part of the embedding.
-/

namespace CryptoStockTracker

/-- The `"up" | "down" | "neutral"` string union used for the price flash. -/
inductive Direction
  | up
  | down
  | neutral
  deriving DecidableEq

/-- One entry of the `CRYPTO_SYMBOLS` configuration table. -/
structure CryptoSymbol where
  symbol : String
  name : String
  shortName : String
  deriving DecidableEq

/-- `CRYPTO_SYMBOLS` from `src/app/page.tsx`. -/
def CRYPTO_SYMBOLS : List CryptoSymbol :=
  [ { symbol := "BTCUSDT", name := "Bitcoin", shortName := "BTC" },
    { symbol := "ETHUSDT", name := "Ethereum", shortName := "ETH" },
    { symbol := "ADAUSDT", name := "Cardano", shortName := "ADA" },
    { symbol := "SOLUSDT", name := "Solana", shortName := "SOL" },
    { symbol := "DOGEUSDT", name := "Dogecoin", shortName := "DOGE" } ]

/-- The `CryptoPrice` interface from `src/app/page.tsx`. -/
structure CryptoPrice where
  symbol : String
  name : String
  price : ℚ
  change24h : ℚ
  changePercent24h : ℚ
  lastUpdate : Int
  previousPrice : Option ℚ
  priceDirection : Direction
  deriving DecidableEq

/-- One element of the parsed aggregate-stream batch: the fields the handler
reads from a ticker object (`ticker.s`, `ticker.c`, `ticker.P`), with the
numeric fields already parsed. -/
structure Ticker where
  s : String
  c : ℚ
  P : ℚ
  deriving DecidableEq

/-- Result of `JSON.parse` on an aggregate-stream message: either the parse
(or the subsequent field access) throws, or it yields a batch of tickers. -/
inductive AggMessage
  | malformed
  | batch (data : List Ticker)

/-- The `prices` React state: a map from exchange symbol to latest snapshot.
Keys are only ever added, never removed. -/
def PriceMap := String → Option CryptoPrice

/-- The direction computation of `ws.onmessage` (page.tsx lines 70–72):
`neutral` unless a previous snapshot exists with a different price, in which
case `up` when the new price is greater and `down` otherwise. -/
def mkDirection (previousData : Option CryptoPrice) (currentPrice : ℚ) : Direction :=
  match previousData with
  | none => Direction.neutral
  | some pd =>
      if pd.price ≠ currentPrice then
        (if currentPrice > pd.price then Direction.up else Direction.down)
      else Direction.neutral

/-- The snapshot object built for a matched ticker (page.tsx lines 91–100).
`change24h` and `changePercent24h` are both `Number.parseFloat(ticker.P)`. -/
def mkSnapshot (crypto : CryptoSymbol) (prices : PriceMap) (now : Int) (t : Ticker) :
    CryptoPrice :=
  let currentPrice := t.c
  let previousData := prices crypto.symbol
  { symbol := crypto.shortName
    name := crypto.name
    price := currentPrice
    change24h := t.P
    changePercent24h := t.P
    lastUpdate := now
    previousPrice := previousData.map (fun pd => pd.price)
    priceDirection := mkDirection previousData currentPrice }

/-- JavaScript object-key assignment `newPrices[k] = v`: replace the value at
an existing key, otherwise add the key. -/
def upsert (l : List (String × CryptoPrice)) (key : String) (v : CryptoPrice) :
    List (String × CryptoPrice) :=
  match l with
  | [] => [(key, v)]
  | (k, w) :: rest => if k = key then (k, v) :: rest else (k, w) :: upsert rest key v

/-- JavaScript object-key lookup on the accumulated `newPrices` object. -/
def alookup (l : List (String × CryptoPrice)) (s : String) : Option CryptoPrice :=
  match l with
  | [] => none
  | (k, v) :: rest => if k = s then some v else alookup rest s

/-- The `data.forEach` loop of `ws.onmessage`: for each ticker whose symbol is
found in `CRYPTO_SYMBOLS`, store a fresh snapshot in the `newPrices` object.
Every comparison is against `prices`, the state before the message. -/
def processBatch (prices : PriceMap) (now : Int) :
    List Ticker → List (String × CryptoPrice) → List (String × CryptoPrice)
  | [], acc => acc
  | t :: rest, acc =>
      match CRYPTO_SYMBOLS.find? (fun c => c.symbol == t.s) with
      | some crypto =>
          processBatch prices now rest (upsert acc crypto.symbol (mkSnapshot crypto prices now t))
      | none => processBatch prices now rest acc

/-- The Ticker Stream Manager state: the component state touched by the
connection callbacks in `src/app/page.tsx`. -/
structure TrackerState where
  prices : PriceMap
  isConnected : Bool
  connectionAttempts : Nat
  isLoading : Bool

/-- Initial component state (`useState` initialisers in page.tsx). -/
def initTrackerState : TrackerState :=
  { prices := fun _ => none
    isConnected := false
    connectionAttempts := 0
    isLoading := true }

/-- `ws.onmessage` of the aggregate stream (page.tsx lines 59–110): a parse
failure is caught and changes nothing; otherwise the batch is folded into
`newPrices` and, when nonempty, spread over the previous `prices` map. -/
def handleAggMessage (st : TrackerState) (now : Int) (msg : AggMessage) : TrackerState :=
  match msg with
  | AggMessage.malformed => st
  | AggMessage.batch data =>
      let newPrices := processBatch st.prices now data []
      if newPrices.isEmpty then st
      else
        { st with
          prices := fun s =>
            match alookup newPrices s with
            | some v => some v
            | none => st.prices s }

/-- `Math.min(1000 * Math.pow(2, connectionAttempts), 30000)` from
`ws.onclose` (page.tsx line 116). -/
def backoffDelay (connectionAttempts : Nat) : Nat :=
  min (1000 * 2 ^ connectionAttempts) 30000

/-- The direction-decay timer callback (page.tsx lines 80–88): set the stored
snapshot's direction back to `neutral`.  The timer is only ever scheduled
right after a snapshot for the symbol was stored, so the key is present;
an absent key is left absent. -/
def decayUpdate (m : PriceMap) (sym : String) : PriceMap :=
  fun s =>
    if s = sym then (m sym).map (fun p => { p with priceDirection := Direction.neutral })
    else m s

/-- Events delivered to the Ticker Stream Manager: the WebSocket callbacks,
the reconnect timer firing, the manual Retry button, and a direction-decay
timer firing for one symbol. -/
inductive TEvent
  | wsOpen
  | wsMessage (now : Int) (msg : AggMessage)
  | wsClose
  | wsError
  | reconnectTimer
  | manualReconnect
  | decayTimer (sym : String)

/-- One step of the Ticker Stream Manager.  Returns the next state together
with the delay (ms) of a reconnect timer scheduled by this event, if any:
`ws.onopen` marks connected and zeroes the attempt counter; `ws.onclose`
marks disconnected and schedules a reconnect after `backoffDelay`; the timer
firing increments the counter; `handleReconnect` zeroes the counter. -/
def stepT (st : TrackerState) (e : TEvent) : TrackerState × Option Nat :=
  match e with
  | TEvent.wsOpen =>
      ({ st with isConnected := true, connectionAttempts := 0, isLoading := false }, none)
  | TEvent.wsMessage now msg => (handleAggMessage st now msg, none)
  | TEvent.wsClose =>
      ({ st with isConnected := false }, some (backoffDelay st.connectionAttempts))
  | TEvent.wsError => ({ st with isConnected := false }, none)
  | TEvent.reconnectTimer =>
      ({ st with connectionAttempts := st.connectionAttempts + 1 }, none)
  | TEvent.manualReconnect => ({ st with connectionAttempts := 0 }, none)
  | TEvent.decayTimer sym => ({ st with prices := decayUpdate st.prices sym }, none)

/-- Run the Ticker Stream Manager from its initial state over a sequence of
events. -/
def runTracker (es : List TEvent) : TrackerState :=
  es.foldl (fun st e => (stepT st e).1) initTrackerState

/-- C2: the delay scheduled by `ws.onclose` is exactly
`min(1000 * 2^attempts, 30000)`; for attempt counts 0–5 this is 1000, 2000,
4000, 8000, 16000, 30000 ms, and it never exceeds 30000 ms. -/
theorem reconnect_backoff_delay :
    (∀ st : TrackerState, (stepT st TEvent.wsClose).2 = some (backoffDelay st.connectionAttempts)) ∧
    backoffDelay 0 = 1000 ∧ backoffDelay 1 = 2000 ∧ backoffDelay 2 = 4000 ∧
    backoffDelay 3 = 8000 ∧ backoffDelay 4 = 16000 ∧ backoffDelay 5 = 30000 ∧
    ∀ n, backoffDelay n = min (1000 * 2 ^ n) 30000 ∧ backoffDelay n ≤ 30000 := by
  refine ⟨fun st => rfl, by decide, by decide, by decide, by decide, by decide, by decide,
    fun n => ⟨rfl, min_le_right _ _⟩⟩

lemma mkDirection_up_iff (o : Option CryptoPrice) (cur : ℚ) :
    mkDirection o cur = Direction.up ↔ ∃ pd, o = some pd ∧ pd.price < cur := by
  cases o with
  | none => simp [mkDirection]
  | some pd =>
      simp only [mkDirection, Option.some.injEq]
      split_ifs with h1 h2
      · exact ⟨fun _ => ⟨pd, rfl, h2⟩, fun _ => rfl⟩
      · constructor
        · intro hcon; exact hcon.elim
        · rintro ⟨pd', rfl, hlt⟩; exact absurd hlt h2
      · constructor
        · intro hcon; exact hcon.elim
        · rintro ⟨pd', rfl, hlt⟩
          push_neg at h1
          exact absurd hlt (by rw [h1]; exact lt_irrefl cur)

lemma mkDirection_down_iff (o : Option CryptoPrice) (cur : ℚ) :
    mkDirection o cur = Direction.down ↔ ∃ pd, o = some pd ∧ cur < pd.price := by
  cases o with
  | none => simp [mkDirection]
  | some pd =>
      simp only [mkDirection, Option.some.injEq]
      split_ifs with h1 h2
      · constructor
        · intro hcon; exact hcon.elim
        · rintro ⟨pd', rfl, hlt⟩; exact absurd h2 (not_lt_of_gt hlt)
      · refine ⟨fun _ => ⟨pd, rfl, ?_⟩, fun _ => rfl⟩
        exact lt_of_le_of_ne (not_lt.mp h2) (Ne.symm h1)
      · constructor
        · intro hcon; exact hcon.elim
        · rintro ⟨pd', rfl, hlt⟩
          push_neg at h1
          exact absurd hlt (by rw [h1]; exact lt_irrefl cur)

lemma mkDirection_neutral_iff (o : Option CryptoPrice) (cur : ℚ) :
    mkDirection o cur = Direction.neutral ↔ ∀ pd, o = some pd → cur = pd.price := by
  cases o with
  | none => simp [mkDirection]
  | some pd =>
      simp only [mkDirection, Option.some.injEq]
      split_ifs with h1 h2
      · constructor
        · intro hcon; exact hcon.elim
        · intro h; exact absurd (h pd rfl).symm h1
      · constructor
        · intro hcon; exact hcon.elim
        · intro h; exact absurd (h pd rfl).symm h1
      · push_neg at h1
        exact ⟨fun _ pd' hpd' => by rw [← hpd']; exact h1.symm, fun _ => rfl⟩

/-- C3: the direction tag of the snapshot stored for an inbound ticker is
`up` iff a previous snapshot exists and its price is below the new price,
`down` iff a previous snapshot exists and its price is above the new price,
and `neutral` otherwise — in particular whenever no previous snapshot
exists. -/
theorem price_direction_spec (c : CryptoSymbol) (prices : PriceMap) (now : Int) (t : Ticker) :
    ((mkSnapshot c prices now t).priceDirection = Direction.up ↔
      ∃ pd, prices c.symbol = some pd ∧ pd.price < t.c) ∧
    ((mkSnapshot c prices now t).priceDirection = Direction.down ↔
      ∃ pd, prices c.symbol = some pd ∧ t.c < pd.price) ∧
    ((mkSnapshot c prices now t).priceDirection = Direction.neutral ↔
      ∀ pd, prices c.symbol = some pd → t.c = pd.price) := by
  have hdir : (mkSnapshot c prices now t).priceDirection = mkDirection (prices c.symbol) t.c := rfl
  rw [hdir]
  exact ⟨mkDirection_up_iff _ _, mkDirection_down_iff _ _, mkDirection_neutral_iff _ _⟩

/-- The `ChartData` interface from the chart component.  The `open` field of
the source is spelled `open_` (reserved word). -/
structure ChartData where
  time : String
  price : ℚ
  timestamp : Int
  volume : ℚ
  open_ : ℚ
  high : ℚ
  low : ℚ
  close : ℚ
  deriving DecidableEq

/-- One row of the klines REST response, with the fields the mapper reads:
`item[0]` (open time), `item[1]` (open), `item[2]` (high), `item[3]` (low),
`item[4]` (close), `item[5]` (volume). -/
structure Kline where
  openTime : Int
  o : ℚ
  h : ℚ
  l : ℚ
  c : ℚ
  v : ℚ
  deriving DecidableEq

/-- The fields the per-symbol stream handler reads from a ticker object
(`ticker.c`, `ticker.v`, `ticker.o`, `ticker.h`, `ticker.l`). -/
structure ChartTicker where
  c : ℚ
  v : ℚ
  o : ℚ
  h : ℚ
  l : ℚ
  deriving DecidableEq

/-- The `intervalMap` lookup with its `|| intervalMap["1h"]` fallback:
timeframe to (granularity code, bar count). -/
def intervalConfig (timeframe : String) : String × Nat :=
  if timeframe = "1h" then ("1m", 60)
  else if timeframe = "24h" then ("5m", 288)
  else if timeframe = "7d" then ("1h", 168)
  else if timeframe = "30d" then ("4h", 180)
  else ("1m", 60)

/-- `maxPoints` of the live-append handler:
`timeframe === "1h" ? 60 : timeframe === "24h" ? 288 : 168`. -/
def maxPoints (timeframe : String) : Nat :=
  if timeframe = "1h" then 60 else if timeframe = "24h" then 288 else 168

/-- The display-label branch of the kline mapper: date-style labels for the
`7d`/`30d` timeframes, time-of-day labels otherwise.  The two locale
formatters are environment inputs. -/
def klineLabel (fmtDate fmtTime : Int → String) (timeframe : String) (ts : Int) : String :=
  if timeframe = "7d" ∨ timeframe = "30d" then fmtDate ts else fmtTime ts

/-- The `data.map` body of `fetchHistoricalData`: one REST row to one bar. -/
def formatKline (fmtDate fmtTime : Int → String) (timeframe : String) (item : Kline) :
    ChartData :=
  let timestamp := item.openTime
  { timestamp := timestamp
    time := klineLabel fmtDate fmtTime timeframe timestamp
    price := item.c
    volume := item.v
    open_ := item.o
    high := item.h
    low := item.l
    close := item.c }

/-- The placeholder loop of the failure branch (`for (let i = 59; i >= 0; i--)`),
with `r` bars still to produce (the current loop index is `i = r - 1`),
`k` the index of the next `Math.random()` draw, and `price` the running
random-walk price.  Each iteration draws `variation`, a high factor, a low
factor, and a volume, in that order. -/
def placeholderLoop (fmtTime : Int → String) (now : Int) (rand : Nat → ℚ) :
    Nat → Nat → ℚ → List ChartData
  | 0, _, _ => []
  | r + 1, k, price =>
      let timestamp : Int := now - (r : Int) * 60000
      let variation := (rand k - 1 / 2) * (2 / 100)
      let op := price
      let close := price * (1 + variation)
      let high := max op close * (1 + rand (k + 1) * (1 / 100))
      let low := min op close * (1 - rand (k + 2) * (1 / 100))
      { timestamp := timestamp
        time := fmtTime timestamp
        price := close
        open_ := op
        high := high
        low := low
        close := close
        volume := rand (k + 3) * 1000000 } :: placeholderLoop fmtTime now rand r (k + 4) close

/-- The complete synthesized `sampleData` series: 60 bars seeded from the
current price. -/
def placeholderSeries (fmtTime : Int → String) (now : Int) (rand : Nat → ℚ) (currentPrice : ℚ) :
    List ChartData :=
  placeholderLoop fmtTime now rand 60 0 currentPrice

/-- The error string set by the catch branch (the suffix interpolated from
the thrown error is immaterial to every claim). -/
def failMsg : String := "Failed to load chart data"

/-- The chart component state touched by `fetchHistoricalData` and the
live-append handler. -/
structure ChartState where
  chartData : List ChartData
  loading : Bool
  error : Option String

/-- Initial chart component state (`useState` initialisers). -/
def initChartState : ChartState :=
  { chartData := [], loading := true, error := none }

/-- The catch branch of `fetchHistoricalData`: record the error; then, when
`currentPrice` is truthy (present and nonzero), replace the bars with the
synthesized placeholder series and clear the error again.  The `finally`
clears the loading flag. -/
def fetchFailurePath (fmtTime : Int → String) (currentPrice : Option ℚ) (now : Int)
    (rand : Nat → ℚ) (st : ChartState) : ChartState :=
  match currentPrice with
  | some p =>
      if p ≠ 0 then
        { st with
          chartData := placeholderSeries fmtTime now rand p
          error := none
          loading := false }
      else { st with error := some failMsg, loading := false }
  | none => { st with error := some failMsg, loading := false }

/-- One complete run of `fetchHistoricalData`, from call to settlement.
`outcome` is the environment's response: `none` when the fetch rejects or the
response status is not ok or the body is not an array, `some rows` for a
parsed array (the code treats an empty array as a failure too).  On success
the bar sequence is replaced wholesale by the mapped rows; `setError(null)`
ran at entry, so the error is cleared on the success path. -/
def fetchHistoricalData (fmtDate fmtTime : Int → String) (timeframe : String)
    (currentPrice : Option ℚ) (now : Int) (rand : Nat → ℚ)
    (outcome : Option (List Kline)) (st : ChartState) : ChartState :=
  match outcome with
  | some rows =>
      if rows.isEmpty then fetchFailurePath fmtTime currentPrice now rand st
      else
        { st with
          chartData := rows.map (formatKline fmtDate fmtTime timeframe)
          error := none
          loading := false }
  | none => fetchFailurePath fmtTime currentPrice now rand st

/-- `newDataPoint` of the per-symbol stream handler. -/
def mkLiveBar (fmtTime : Int → String) (now : Int) (t : ChartTicker) : ChartData :=
  { timestamp := now
    time := fmtTime now
    price := t.c
    volume := t.v
    open_ := t.o
    high := t.h
    low := t.l
    close := t.c }

/-- JavaScript `arr.slice(-k)` for `k ≥ 1`: the last `k` elements (the whole
array when it is shorter).  The handler only uses `k = maxPoints - 1 ≥ 59`. -/
def jsSliceLast (k : Nat) (l : List ChartData) : List ChartData :=
  l.drop (l.length - k)

/-- The `setChartData` update of the per-symbol stream handler:
`[...prev.slice(-(maxPoints - 1)), newDataPoint]`. -/
def appendLivePoint (fmtTime : Int → String) (timeframe : String) (now : Int)
    (t : ChartTicker) (prev : List ChartData) : List ChartData :=
  jsSliceLast (maxPoints timeframe - 1) prev ++ [mkLiveBar fmtTime now t]

/-- Result of `JSON.parse` on a per-symbol stream message. -/
inductive ChartMessage
  | malformed
  | ticker (t : ChartTicker)

/-- `ws.onmessage` of the per-symbol stream (chart component lines 146–170):
a parse failure is caught and changes nothing; otherwise one live bar is
appended into the bounded window. -/
def handleChartMessage (fmtTime : Int → String) (timeframe : String) (now : Int)
    (msg : ChartMessage) (st : ChartState) : ChartState :=
  match msg with
  | ChartMessage.malformed => st
  | ChartMessage.ticker t =>
      { st with chartData := appendLivePoint fmtTime timeframe now t st.chartData }

/-- Fold a sequence of live appends (arrival time, parsed ticker) over a bar
sequence. -/
def runAppends (fmtTime : Int → String) (timeframe : String) (l : List ChartData)
    (events : List (Int × ChartTicker)) : List ChartData :=
  events.foldl (fun acc e => appendLivePoint fmtTime timeframe e.1 e.2 acc) l

/-- Each bar's close is within ±1% of the previous bar's close, the first
within ±1% of the seed. -/
def closeChain (prev : ℚ) : List ChartData → Prop
  | [] => True
  | b :: rest => |b.close - prev| ≤ |prev| / 100 ∧ closeChain b.close rest

/-! Concrete sample values shared by witnesses and counterexamples. -/

def fmt0 : Int → String := fun _ => ""

def rand0 : Nat → ℚ := fun _ => 0

def randHalf : Nat → ℚ := fun _ => 1 / 2

def sampleBar : ChartData :=
  { time := "", price := 0, timestamp := 0, volume := 0, open_ := 0, high := 0, low := 0,
    close := 0 }

def sampleTicker : ChartTicker := { c := 1, v := 1, o := 1, h := 1, l := 1 }

def klineA : Kline := { openTime := 0, o := 1, h := 1, l := 1, c := 1, v := 1 }

def klineB : Kline := { openTime := 0, o := 2, h := 2, l := 2, c := 2, v := 2 }

def preloadedState : ChartState :=
  { chartData := [sampleBar], loading := false, error := none }

lemma sixty_le_maxPoints (tf : String) : 60 ≤ maxPoints tf := by
  unfold maxPoints; split_ifs <;> norm_num

/-- C7: appending one live bar to a bar sequence that is exactly at the live
window size drops the element at index 0, keeps the rest in order, puts the
new bar last, and leaves the length unchanged. -/
theorem window_eviction (ft : Int → String) (tf : String) (now : Int) (tk : ChartTicker)
    (prev : List ChartData) (h : prev.length = maxPoints tf) :
    appendLivePoint ft tf now tk prev = prev.drop 1 ++ [mkLiveBar ft now tk] ∧
    (appendLivePoint ft tf now tk prev).length = maxPoints tf := by
  have hmp : 60 ≤ maxPoints tf := sixty_le_maxPoints tf
  have hdrop : prev.length - (maxPoints tf - 1) = 1 := by omega
  constructor
  · unfold appendLivePoint jsSliceLast
    rw [hdrop]
  · unfold appendLivePoint jsSliceLast
    rw [hdrop]
    simp only [List.length_append, List.length_drop, List.length_singleton]
    omega

theorem window_eviction_witness :
    (List.replicate 60 sampleBar).length = maxPoints "1h" ∧
    (appendLivePoint fmt0 "1h" 0 sampleTicker (List.replicate 60 sampleBar) =
        (List.replicate 60 sampleBar).drop 1 ++ [mkLiveBar fmt0 0 sampleTicker] ∧
      (appendLivePoint fmt0 "1h" 0 sampleTicker (List.replicate 60 sampleBar)).length =
        maxPoints "1h") :=
  ⟨by decide, window_eviction fmt0 "1h" 0 sampleTicker (List.replicate 60 sampleBar) (by decide)⟩

/-- C9: a malformed (unparseable) message is swallowed by the catch branch of
either stream handler: the whole state — price map, connectivity flag, bar
sequence, loading and error flags — is left unchanged. -/
theorem malformed_message_noop (st : TrackerState) (now : Int) (ft : Int → String)
    (tf : String) (now2 : Int) (cst : ChartState) :
    handleAggMessage st now AggMessage.malformed = st ∧
    handleChartMessage ft tf now2 ChartMessage.malformed cst = cst :=
  ⟨rfl, rfl⟩

/-- C1 (code bug): `fetchHistoricalData` carries no generation tag, so a stale
fetch that settles after a newer one overwrites the newer data.  After the
fetch for symbol B settles (bar closes `[2]`), letting the earlier fetch for
symbol A settle leaves A's closes `[1]` in the bar sequence, not B's. -/
theorem stale_fetch_overwrites :
    ((fetchHistoricalData fmt0 fmt0 "1h" none 0 rand0 (some [klineB])
        initChartState).chartData.map (fun b => b.close) = [2]) ∧
    ((fetchHistoricalData fmt0 fmt0 "1h" none 0 rand0 (some [klineA])
        (fetchHistoricalData fmt0 fmt0 "1h" none 0 rand0 (some [klineB])
          initChartState)).chartData.map (fun b => b.close) = [1]) ∧
    ([(1 : ℚ)] ≠ [(2 : ℚ)]) :=
  ⟨rfl, rfl, by decide⟩

/-- C6 counterexample: a failing fetch with no known current price leaves the
previous bars in place — starting from a state holding one bar, the error
flag is set but the bar sequence is not empty, contrary to the claim. -/
theorem fetch_fail_keeps_old_bars :
    (fetchHistoricalData fmt0 fmt0 "1h" none 0 rand0 none preloadedState).error = some failMsg ∧
    (fetchHistoricalData fmt0 fmt0 "1h" none 0 rand0 none preloadedState).chartData ≠ [] :=
  ⟨rfl, by decide⟩

/-- C6 amended: a failing fetch with no known current price sets the error
flag, clears the loading flag, and leaves the bar sequence exactly as it was
— hence empty precisely when the failing fetch was the initial load of a
fresh chart. -/
theorem fetch_fail_no_price (fd ft : Int → String) (tf : String) (now : Int)
    (rand : Nat → ℚ) (outcome : Option (List Kline)) (st : ChartState)
    (hfail : outcome = none ∨ outcome = some []) :
    (fetchHistoricalData fd ft tf none now rand outcome st).error = some failMsg ∧
    (fetchHistoricalData fd ft tf none now rand outcome st).chartData = st.chartData ∧
    (fetchHistoricalData fd ft tf none now rand outcome st).loading = false := by
  rcases hfail with h | h <;> subst h <;> exact ⟨rfl, rfl, rfl⟩

theorem fetch_fail_no_price_witness :
    ((none : Option (List Kline)) = none ∨ (none : Option (List Kline)) = some []) ∧
    ((fetchHistoricalData fmt0 fmt0 "1h" none 0 rand0 none initChartState).error = some failMsg ∧
      (fetchHistoricalData fmt0 fmt0 "1h" none 0 rand0 none initChartState).chartData =
        initChartState.chartData ∧
      (fetchHistoricalData fmt0 fmt0 "1h" none 0 rand0 none initChartState).loading = false) :=
  ⟨Or.inl rfl, fetch_fail_no_price fmt0 fmt0 "1h" 0 rand0 none initChartState (Or.inl rfl)⟩

lemma placeholderLoop_length (ft : Int → String) (now : Int) (rand : Nat → ℚ) :
    ∀ r k p, (placeholderLoop ft now rand r k p).length = r := by
  intro r
  induction r with
  | zero => intro k p; rfl
  | succ r ih => intro k p; simp only [placeholderLoop, List.length_cons, ih]

lemma placeholderLoop_chain (ft : Int → String) (now : Int) (rand : Nat → ℚ)
    (hrand : ∀ k, 0 ≤ rand k ∧ rand k < 1) :
    ∀ r k p, closeChain p (placeholderLoop ft now rand r k p) := by
  intro r
  induction r with
  | zero => intro k p; trivial
  | succ r ih =>
      intro k p
      simp only [placeholderLoop, closeChain]
      refine ⟨?_, ih (k + 4) (p * (1 + (rand k - 1 / 2) * (2 / 100)))⟩
      obtain ⟨h0, h1⟩ := hrand k
      have habs : |rand k - 1 / 2| ≤ 1 / 2 := abs_le.mpr ⟨by linarith, by linarith⟩
      have hv : |(rand k - 1 / 2) * (2 / 100)| ≤ 1 / 100 := by
        rw [abs_mul]
        calc |rand k - 1 / 2| * |(2 : ℚ) / 100|
            ≤ 1 / 2 * (2 / 100) := by
              rw [abs_of_nonneg (by norm_num : (0 : ℚ) ≤ 2 / 100)]
              exact mul_le_mul_of_nonneg_right habs (by norm_num)
          _ = 1 / 100 := by norm_num
      calc |p * (1 + (rand k - 1 / 2) * (2 / 100)) - p|
          = |p| * |(rand k - 1 / 2) * (2 / 100)| := by
            rw [← abs_mul]; ring_nf
        _ ≤ |p| * (1 / 100) := mul_le_mul_of_nonneg_left hv (abs_nonneg p)
        _ = |p| / 100 := by ring

/-- C5: when the fetch fails and a nonzero current price is known, the loader
replaces the bar sequence with the 60-bar synthesized placeholder series,
each bar's close within ±1% of the previous close (the first within ±1% of
the current price), and finishes with the error flag clear and loading
done. -/
theorem placeholder_on_failure (fd ft : Int → String) (tf : String) (now : Int)
    (rand : Nat → ℚ) (p : ℚ) (outcome : Option (List Kline)) (st : ChartState)
    (hrand : ∀ k, 0 ≤ rand k ∧ rand k < 1) (hp : p ≠ 0)
    (hfail : outcome = none ∨ outcome = some []) :
    (fetchHistoricalData fd ft tf (some p) now rand outcome st).chartData =
        placeholderSeries ft now rand p ∧
    (fetchHistoricalData fd ft tf (some p) now rand outcome st).chartData.length = 60 ∧
    (fetchHistoricalData fd ft tf (some p) now rand outcome st).error = none ∧
    (fetchHistoricalData fd ft tf (some p) now rand outcome st).loading = false ∧
    closeChain p (fetchHistoricalData fd ft tf (some p) now rand outcome st).chartData := by
  have hres : fetchHistoricalData fd ft tf (some p) now rand outcome st =
      { st with
        chartData := placeholderSeries ft now rand p
        error := none
        loading := false } := by
    rcases hfail with h | h <;> subst h <;> simp [fetchHistoricalData, fetchFailurePath, hp]
  rw [hres]
  exact ⟨rfl, placeholderLoop_length ft now rand 60 0 p, rfl, rfl,
    placeholderLoop_chain ft now rand hrand 60 0 p⟩

theorem placeholder_on_failure_witness :
    (∀ k, 0 ≤ randHalf k ∧ randHalf k < 1) ∧ ((100 : ℚ) ≠ 0) ∧
    ((none : Option (List Kline)) = none ∨ (none : Option (List Kline)) = some []) ∧
    ((fetchHistoricalData fmt0 fmt0 "1h" (some 100) 0 randHalf none initChartState).chartData =
        placeholderSeries fmt0 0 randHalf 100 ∧
      (fetchHistoricalData fmt0 fmt0 "1h" (some 100) 0 randHalf none
          initChartState).chartData.length = 60 ∧
      (fetchHistoricalData fmt0 fmt0 "1h" (some 100) 0 randHalf none initChartState).error =
        none ∧
      (fetchHistoricalData fmt0 fmt0 "1h" (some 100) 0 randHalf none initChartState).loading =
        false ∧
      closeChain 100
        (fetchHistoricalData fmt0 fmt0 "1h" (some 100) 0 randHalf none
          initChartState).chartData) :=
  ⟨fun _ => ⟨by norm_num [randHalf], by norm_num [randHalf]⟩, by norm_num, Or.inl rfl,
    placeholder_on_failure fmt0 fmt0 "1h" 0 randHalf 100 none initChartState
      (fun _ => ⟨by norm_num [randHalf], by norm_num [randHalf]⟩) (by norm_num) (Or.inl rfl)⟩

/-- The timeframes offered by the timeframe selector buttons. -/
def validTimeframe (tf : String) : Prop :=
  tf = "1h" ∨ tf = "24h" ∨ tf = "7d" ∨ tf = "30d"

/-- The window invariant behind C4: bars sorted ascending by timestamp, count
within the timeframe's configured bar count, all timestamps at or before the
current time `t`. -/
def WindowInv (timeframe : String) (t : Int) (l : List ChartData) : Prop :=
  l.Pairwise (fun a b => a.timestamp ≤ b.timestamp) ∧
  l.length ≤ (intervalConfig timeframe).2 ∧
  ∀ b ∈ l, b.timestamp ≤ t

lemma maxPoints_le_cap (tf : String) (h : validTimeframe tf) :
    maxPoints tf ≤ (intervalConfig tf).2 := by
  rcases h with h | h | h | h <;> subst h <;> decide

lemma sixty_le_cap (tf : String) (h : validTimeframe tf) : 60 ≤ (intervalConfig tf).2 := by
  rcases h with h | h | h | h <;> subst h <;> decide

lemma appendLivePoint_inv (ft : Int → String) (tf : String) (hv : validTimeframe tf)
    (t t' : Int) (tk : ChartTicker) (l : List ChartData)
    (hle : t ≤ t') (h : WindowInv tf t l) :
    WindowInv tf t' (appendLivePoint ft tf t' tk l) := by
  obtain ⟨hs, hlen, hts⟩ := h
  have hmem : ∀ b ∈ jsSliceLast (maxPoints tf - 1) l, b ∈ l := by
    intro b hb
    unfold jsSliceLast at hb
    exact List.mem_of_mem_drop hb
  refine ⟨?_, ?_, ?_⟩
  · unfold appendLivePoint
    rw [List.pairwise_append]
    refine ⟨List.Pairwise.sublist (List.drop_sublist _ _) hs, by simp, ?_⟩
    intro a ha b hb
    rw [List.mem_singleton] at hb
    subst hb
    have := hts a (hmem a ha)
    simpa [mkLiveBar] using le_trans this hle
  · unfold appendLivePoint jsSliceLast
    have hd : (l.drop (l.length - (maxPoints tf - 1))).length ≤ maxPoints tf - 1 := by
      rw [List.length_drop]; omega
    have hcap := maxPoints_le_cap tf hv
    have h60 := sixty_le_maxPoints tf
    simp only [List.length_append, List.length_singleton]
    omega
  · intro b hb
    unfold appendLivePoint at hb
    rw [List.mem_append] at hb
    rcases hb with hb | hb
    · exact le_trans (hts b (hmem b hb)) hle
    · rw [List.mem_singleton] at hb; subst hb; simp [mkLiveBar]

lemma placeholderLoop_ts (ft : Int → String) (now : Int) (rand : Nat → ℚ) :
    ∀ r k p b, b ∈ placeholderLoop ft now rand r k p →
      now - (r : Int) * 60000 < b.timestamp ∧ b.timestamp ≤ now := by
  intro r
  induction r with
  | zero => intro k p b hb; exact absurd hb (List.not_mem_nil b)
  | succ r ih =>
      intro k p b hb
      simp only [placeholderLoop, List.mem_cons] at hb
      rcases hb with hb | hb
      · subst hb
        dsimp only
        constructor
        · push_cast
          linarith
        · have : (0 : Int) ≤ (r : Int) * 60000 := by positivity
          linarith
      · obtain ⟨h1, h2⟩ := ih (k + 4) _ b hb
        refine ⟨?_, h2⟩
        push_cast at h1 ⊢
        linarith

lemma placeholderLoop_sorted (ft : Int → String) (now : Int) (rand : Nat → ℚ) :
    ∀ r k p,
      (placeholderLoop ft now rand r k p).Pairwise (fun a b => a.timestamp ≤ b.timestamp) := by
  intro r
  induction r with
  | zero => intro k p; simp [placeholderLoop]
  | succ r ih =>
      intro k p
      simp only [placeholderLoop, List.pairwise_cons]
      refine ⟨?_, ih (k + 4) _⟩
      intro b hb
      have hlt := (placeholderLoop_ts ft now rand r (k + 4) _ b hb).1
      show now - (r : Int) * 60000 ≤ b.timestamp
      linarith

lemma fetchFailurePath_inv (ft : Int → String) (tf : String) (hv : validTimeframe tf)
    (cp : Option ℚ) (now : Int) (rand : Nat → ℚ) :
    WindowInv tf now (fetchFailurePath ft cp now rand initChartState).chartData := by
  have hempty : WindowInv tf now ([] : List ChartData) := by
    exact ⟨List.Pairwise.nil, by simp, by simp⟩
  cases cp with
  | none => exact hempty
  | some p =>
      by_cases hp : p ≠ 0
      · simp only [fetchFailurePath, if_pos hp]
        unfold placeholderSeries
        refine ⟨placeholderLoop_sorted ft now rand 60 0 p, ?_, ?_⟩
        · rw [placeholderLoop_length ft now rand 60 0 p]
          exact sixty_le_cap tf hv
        · intro b hb
          exact (placeholderLoop_ts ft now rand 60 0 p b hb).2
      · simp only [fetchFailurePath, if_neg hp]
        exact hempty

lemma load_establishes_inv (fd ft : Int → String) (tf : String) (hv : validTimeframe tf)
    (cp : Option ℚ) (now : Int) (rand : Nat → ℚ) (outcome : Option (List Kline))
    (hrows : ∀ rows, outcome = some rows →
      rows.Pairwise (fun a b => a.openTime ≤ b.openTime) ∧
      rows.length ≤ (intervalConfig tf).2 ∧ ∀ k ∈ rows, k.openTime ≤ now) :
    WindowInv tf now
      (fetchHistoricalData fd ft tf cp now rand outcome initChartState).chartData := by
  cases outcome with
  | none => exact fetchFailurePath_inv ft tf hv cp now rand
  | some rows =>
      by_cases he : rows.isEmpty
      · simp only [fetchHistoricalData, if_pos he]
        exact fetchFailurePath_inv ft tf hv cp now rand
      · simp only [fetchHistoricalData, if_neg he]
        obtain ⟨h1, h2, h3⟩ := hrows rows rfl
        refine ⟨?_, ?_, ?_⟩
        · rw [List.pairwise_map]
          exact h1
        · rw [List.length_map]
          exact h2
        · intro b hb
          rw [List.mem_map] at hb
          obtain ⟨k, hk, rfl⟩ := hb
          exact h3 k hk

lemma runAppends_inv (ft : Int → String) (tf : String) (hv : validTimeframe tf) :
    ∀ (events : List (Int × ChartTicker)) (t : Int) (l : List ChartData),
      WindowInv tf t l → List.Chain' (· ≤ ·) (t :: events.map Prod.fst) →
      ∃ t', WindowInv tf t' (runAppends ft tf l events) := by
  intro events
  induction events with
  | nil => intro t l h _; exact ⟨t, h⟩
  | cons e rest ih =>
      intro t l h hch
      rw [List.map_cons, List.chain'_cons] at hch
      obtain ⟨hte, hch'⟩ := hch
      exact ih e.1 _ (appendLivePoint_inv ft tf hv t e.1 e.2 l hte h) hch'

/-- C4: starting from a fresh chart, a bulk history load (whose response, per
the exchange's contract, is sorted ascending and no longer than the requested
bar count) followed by any number of live appends at non-decreasing arrival
times always leaves the bar sequence sorted ascending by timestamp and no
longer than the selected timeframe's configured bar count. -/
theorem chart_window_invariant (fd ft : Int → String) (tf : String)
    (cp : Option ℚ) (now0 : Int) (rand : Nat → ℚ) (outcome : Option (List Kline))
    (appends : List (Int × ChartTicker))
    (hv : tf = "1h" ∨ tf = "24h" ∨ tf = "7d" ∨ tf = "30d")
    (hrows : ∀ rows, outcome = some rows →
      rows.Pairwise (fun a b => a.openTime ≤ b.openTime) ∧
      rows.length ≤ (intervalConfig tf).2 ∧ ∀ k ∈ rows, k.openTime ≤ now0)
    (htimes : List.Chain' (· ≤ ·) (now0 :: appends.map Prod.fst)) :
    (runAppends ft tf
        (fetchHistoricalData fd ft tf cp now0 rand outcome initChartState).chartData
        appends).Pairwise (fun a b => a.timestamp ≤ b.timestamp) ∧
    (runAppends ft tf
        (fetchHistoricalData fd ft tf cp now0 rand outcome initChartState).chartData
        appends).length ≤ (intervalConfig tf).2 := by
  have h0 := load_establishes_inv fd ft tf hv cp now0 rand outcome hrows
  obtain ⟨t', h⟩ := runAppends_inv ft tf hv appends now0 _ h0 htimes
  exact ⟨h.1, h.2.1⟩

theorem chart_window_invariant_witness :
    ("1h" = "1h" ∨ "1h" = "24h" ∨ "1h" = "7d" ∨ "1h" = "30d") ∧
    (∀ rows, (some [klineA] : Option (List Kline)) = some rows →
      rows.Pairwise (fun a b => a.openTime ≤ b.openTime) ∧
      rows.length ≤ (intervalConfig "1h").2 ∧ ∀ k ∈ rows, k.openTime ≤ 0) ∧
    List.Chain' (· ≤ ·) ((0 : Int) :: [((0 : Int), sampleTicker)].map Prod.fst) ∧
    ((runAppends fmt0 "1h"
        (fetchHistoricalData fmt0 fmt0 "1h" none 0 rand0 (some [klineA])
          initChartState).chartData
        [(0, sampleTicker)]).Pairwise (fun a b => a.timestamp ≤ b.timestamp) ∧
      (runAppends fmt0 "1h"
        (fetchHistoricalData fmt0 fmt0 "1h" none 0 rand0 (some [klineA])
          initChartState).chartData
        [(0, sampleTicker)]).length ≤ (intervalConfig "1h").2) := by
  have hrows : ∀ rows, (some [klineA] : Option (List Kline)) = some rows →
      rows.Pairwise (fun a b => a.openTime ≤ b.openTime) ∧
      rows.length ≤ (intervalConfig "1h").2 ∧ ∀ k ∈ rows, k.openTime ≤ 0 := by
    rintro rows h
    injection h with h
    subst h
    exact ⟨by simp, by decide, by decide⟩
  have hch : List.Chain' (· ≤ ·) ((0 : Int) :: [((0 : Int), sampleTicker)].map Prod.fst) := by
    simp
  refine ⟨Or.inl rfl, hrows, hch, ?_⟩
  exact chart_window_invariant fmt0 fmt0 "1h" none 0 rand0 (some [klineA])
    [(0, sampleTicker)] (Or.inl rfl) hrows hch

/-- A tracker state mid-way through a reconnect storm: three failed attempts
so far. -/
def attemptsState : TrackerState :=
  { prices := fun _ => none, isConnected := false, connectionAttempts := 3, isLoading := false }

/-- C8 counterexample: the manual Retry handler (`handleReconnect`) also
resets the attempt counter to zero, with no successful open involved — from
a state with three recorded attempts, the `manualReconnect` event (which is
not `wsOpen`) yields a counter of zero. -/
theorem manual_reconnect_resets_counter :
    attemptsState.connectionAttempts = 3 ∧
    (stepT attemptsState TEvent.manualReconnect).1.connectionAttempts = 0 ∧
    TEvent.manualReconnect ≠ TEvent.wsOpen :=
  ⟨rfl, rfl, fun h => TEvent.noConfusion h⟩

lemma handleAggMessage_attempts (st : TrackerState) (now : Int) (msg : AggMessage) :
    (handleAggMessage st now msg).connectionAttempts = st.connectionAttempts := by
  cases msg with
  | malformed => rfl
  | batch data => simp only [handleAggMessage]; split <;> rfl

/-- C8 amended: the reconnect attempt counter is reset to zero only by a
successful open of the aggregate stream or by a manual reconnect; no other
event resets it. -/
theorem attempts_reset_events (st : TrackerState) (e : TEvent)
    (h0 : st.connectionAttempts ≠ 0)
    (h : (stepT st e).1.connectionAttempts = 0) :
    e = TEvent.wsOpen ∨ e = TEvent.manualReconnect := by
  cases e with
  | wsOpen => exact Or.inl rfl
  | manualReconnect => exact Or.inr rfl
  | wsMessage now msg =>
      have hh : st.connectionAttempts = 0 := by
        rw [← handleAggMessage_attempts st now msg]; exact h
      exact absurd hh h0
  | wsClose => exact absurd h h0
  | wsError => exact absurd h h0
  | reconnectTimer => exact absurd h (Nat.succ_ne_zero _)
  | decayTimer sym => exact absurd h h0

theorem attempts_reset_events_witness :
    attemptsState.connectionAttempts ≠ 0 ∧
    (stepT attemptsState TEvent.wsOpen).1.connectionAttempts = 0 ∧
    (TEvent.wsOpen = TEvent.wsOpen ∨ TEvent.wsOpen = TEvent.manualReconnect) :=
  ⟨by decide, rfl, attempts_reset_events attemptsState TEvent.wsOpen (by decide) rfl⟩

lemma mem_upsert : ∀ (l : List (String × CryptoPrice)) (key : String) (v : CryptoPrice)
    (kv : String × CryptoPrice), kv ∈ upsert l key v → kv = (key, v) ∨ kv ∈ l := by
  intro l
  induction l with
  | nil =>
      intro key v kv hkv
      simp only [upsert, List.mem_singleton] at hkv
      exact Or.inl hkv
  | cons hd tl ih =>
      intro key v kv hkv
      obtain ⟨k, w⟩ := hd
      simp only [upsert] at hkv
      by_cases hk : k = key
      · rw [if_pos hk] at hkv
        rcases List.mem_cons.mp hkv with h | h
        · exact Or.inl (by rw [h, hk])
        · exact Or.inr (List.mem_cons_of_mem _ h)
      · rw [if_neg hk] at hkv
        rcases List.mem_cons.mp hkv with h | h
        · exact Or.inr (by rw [h]; exact List.mem_cons_self _ _)
        · rcases ih key v kv h with h' | h'
          · exact Or.inl h'
          · exact Or.inr (List.mem_cons_of_mem _ h')

lemma alookup_mem : ∀ (l : List (String × CryptoPrice)) (s : String) (p : CryptoPrice),
    alookup l s = some p → ∃ k, (k, p) ∈ l := by
  intro l
  induction l with
  | nil => intro s p h; exact absurd h (by simp [alookup])
  | cons hd tl ih =>
      intro s p h
      obtain ⟨k, w⟩ := hd
      simp only [alookup] at h
      by_cases hk : k = s
      · rw [if_pos hk] at h
        injection h with h
        exact ⟨k, by rw [h]; exact List.mem_cons_self _ _⟩
      · rw [if_neg hk] at h
        obtain ⟨k', hk'⟩ := ih s p h
        exact ⟨k', List.mem_cons_of_mem _ hk'⟩

lemma processBatch_fields (prices : PriceMap) (now : Int) :
    ∀ (data : List Ticker) (acc : List (String × CryptoPrice)),
      (∀ kv ∈ acc, kv.2.change24h = kv.2.changePercent24h) →
      ∀ kv ∈ processBatch prices now data acc, kv.2.change24h = kv.2.changePercent24h := by
  intro data
  induction data with
  | nil => intro acc hacc kv hkv; exact hacc kv hkv
  | cons t rest ih =>
      intro acc hacc kv hkv
      cases hfind : CRYPTO_SYMBOLS.find? (fun c => c.symbol == t.s) with
      | some crypto =>
          simp only [processBatch, hfind] at hkv
          refine ih _ ?_ kv hkv
          intro kv' hkv'
          rcases mem_upsert acc crypto.symbol (mkSnapshot crypto prices now t) kv' hkv' with
            h | h
          · rw [h]; rfl
          · exact hacc kv' h
      | none =>
          simp only [processBatch, hfind] at hkv
          exact ih acc hacc kv hkv

lemma stepT_fields (st : TrackerState) (e : TEvent)
    (h : ∀ s p, st.prices s = some p → p.change24h = p.changePercent24h) :
    ∀ s p, (stepT st e).1.prices s = some p → p.change24h = p.changePercent24h := by
  cases e with
  | wsOpen => exact h
  | wsClose => exact h
  | wsError => exact h
  | reconnectTimer => exact h
  | manualReconnect => exact h
  | decayTimer sym =>
      intro s p hp
      simp only [stepT, decayUpdate] at hp
      by_cases hs : s = sym
      · rw [if_pos hs] at hp
        cases hq : st.prices sym with
        | none => rw [hq] at hp; exact absurd hp (by simp)
        | some q =>
            rw [hq] at hp
            simp only [Option.map_some'] at hp
            injection hp with hp
            rw [← hp]
            exact h sym q hq
      · rw [if_neg hs] at hp; exact h s p hp
  | wsMessage now msg =>
      intro s p hp
      cases msg with
      | malformed => exact h s p hp
      | batch data =>
          simp only [stepT, handleAggMessage] at hp
          by_cases he : (processBatch st.prices now data []).isEmpty = true
          · rw [if_pos he] at hp; exact h s p hp
          · rw [if_neg he] at hp
            dsimp only at hp
            cases halo : alookup (processBatch st.prices now data []) s with
            | none => rw [halo] at hp; exact h s p hp
            | some v =>
                rw [halo] at hp
                injection hp with hp
                obtain ⟨k, hk⟩ := alookup_mem _ s v halo
                have := processBatch_fields st.prices now data []
                  (by intro kv hkv; exact absurd hkv (List.not_mem_nil kv)) (k, v) hk
                rw [← hp]
                exact this

/-- C10: every snapshot ever stored in the price mapping has
`change24h = changePercent24h`, since both are parsed from `ticker.P`. -/
theorem snapshot_change_fields (es : List TEvent) (s : String) (p : CryptoPrice)
    (h : (runTracker es).prices s = some p) : p.change24h = p.changePercent24h := by
  have H : ∀ (es : List TEvent) (st : TrackerState),
      (∀ s p, st.prices s = some p → p.change24h = p.changePercent24h) →
      ∀ s p, (es.foldl (fun st e => (stepT st e).1) st).prices s = some p →
        p.change24h = p.changePercent24h := by
    intro es
    induction es with
    | nil => intro st hst; exact hst
    | cons e rest ih =>
        intro st hst
        exact ih _ (stepT_fields st e hst)
  exact H es initTrackerState
    (fun s p hp => absurd hp (by simp [initTrackerState])) s p h

def witnessEvents : List TEvent :=
  [TEvent.wsMessage 0 (AggMessage.batch [{ s := "BTCUSDT", c := 5, P := 3 }])]

def witnessSnap : CryptoPrice :=
  { symbol := "BTC", name := "Bitcoin", price := 5, change24h := 3, changePercent24h := 3,
    lastUpdate := 0, previousPrice := none, priceDirection := Direction.neutral }

theorem snapshot_change_fields_witness :
    (runTracker witnessEvents).prices "BTCUSDT" = some witnessSnap ∧
    witnessSnap.change24h = witnessSnap.changePercent24h :=
  ⟨by decide, snapshot_change_fields witnessEvents "BTCUSDT" witnessSnap (by decide)⟩

end CryptoStockTracker
